import Mathlib

/-!
Verification of mgba's scripting host runtime (`src/script/context.c`) against
its natural-language specification.

The C file is shallowly embedded below.  The `struct mScriptContext` state,
its heap of reference-counted `mScriptValue` objects and the externally
observable calls (engine callbacks, reference-count operations) are bundled
into a single `World` record; every function of `context.c` becomes a Lean
function on `World`.  Collaborators that live outside the provided source
(the generic hash-table / table / list utilities, `mScriptValueRef`,
`mScriptValueDeref`, `mScriptValueAlloc`, `mScriptValueUnwrap`, the coercion
predicate and the engine callbacks) are either modelled from the spec or
taken as explicit function parameters; each such definition carries a doc
comment saying so.

Pointers are modelled as natural-number identities into an association-list
heap; `uint32_t` arithmetic is `Nat` with explicit `% 2^32`.  Externally
visible calls are recorded in an event trace so that ordering claims
("engines are notified before the handle is cleared") are statable.
-/

/-- The discriminator `type->base` of a script value
(`mSCRIPT_TYPE_SINT`, `mSCRIPT_TYPE_UINT`, `mSCRIPT_TYPE_FLOAT`,
`mSCRIPT_TYPE_FUNCTION`, `mSCRIPT_TYPE_WRAPPER`, `mSCRIPT_TYPE_WEAKREF`, ...).
Modelled from the spec: the concrete enum lives in the headers outside
`src/`; the spec lists "scalar (signed/unsigned/float), composite, function,
weak-reference, internal-wrapper". -/
inductive MScriptTypeBase where
  | void
  | sint
  | uint
  | float
  | string
  | table
  | list
  | function
  | wrapper
  | weakref
  deriving DecidableEq, Repr

/-- A script value type: the `base` discriminator plus, for function types,
the declared parameter signature (`details.function.parameters`).  Parameter
types are represented by their discriminators; the coercion predicate that
consumes them is a collaborator parameter, so nothing below inspects them. -/
structure MScriptType where
  base : MScriptTypeBase
  functionParams : List MScriptTypeBase := []
  deriving DecidableEq, Repr

/-- The payload union `value.{u32, opaque, ...}` of a script value.  `optr`
models a pointer-valued payload (a heap identity). -/
inductive MScriptPayload where
  | noPayload
  | u32 (n : Nat)
  | optr (id : Nat)
  deriving DecidableEq, Repr

/-- The reference-count field, with the distinguished `mSCRIPT_VALUE_UNREF`
sentinel meaning "not reference-counted". -/
inductive RefState where
  | unref
  | counted (n : Nat)
  deriving DecidableEq, Repr

/-- The C `struct mScriptValue`: type, payload union, reference count. -/
structure MScriptValue where
  typ : MScriptType
  payload : MScriptPayload
  refs : RefState
  deriving DecidableEq, Repr

/-- Externally observable happenings, in chronological order: calls into an
engine context's callbacks, reference-count operations on heap values, and
weak-reference clears.  These are exactly the calls a test double would
record. -/
inductive Event where
  | engineSetGlobal (engine : String) (key : String) (v : Option Nat)
  | engineIsScript (engine : String) (name : String) (vf : Nat)
  | engineLoad (engine : String) (vf : Nat) (auxError : Option Nat)
  | refEv (id : Nat)
  | derefEv (id : Nat)
  | clearWeakrefEv (handle : Nat)
  deriving DecidableEq, Repr

/-- Association-list lookup (first binding wins); the reading interface of the
generic `Table`/`HashTable` collaborators. -/
def assocLookup {κ α : Type} [DecidableEq κ] : List (κ × α) → κ → Option α
  | [], _ => none
  | (k, v) :: rest, key => if k = key then some v else assocLookup rest key

/-- Remove the binding for a key from an association list. -/
def assocRemove {κ α : Type} [DecidableEq κ] : List (κ × α) → κ → List (κ × α)
  | [], _ => []
  | (k, v) :: rest, key => if k = key then rest else (k, v) :: assocRemove rest key

/-- Replace the value bound to a key (used when an insert hits an occupied
key); leaves the list unchanged if the key is absent. -/
def assocReplace {κ α : Type} [DecidableEq κ] : List (κ × α) → κ → α → List (κ × α)
  | [], _, _ => []
  | (k, v) :: rest, key, value =>
      if k = key then (k, value) :: rest else (k, v) :: assocReplace rest key value

/-- Insert a binding: replace if the key is occupied, append otherwise. -/
def assocInsert {κ α : Type} [DecidableEq κ] (l : List (κ × α)) (key : κ) (value : α) :
    List (κ × α) :=
  match assocLookup l key with
  | some _ => assocReplace l key value
  | none => l ++ [(key, value)]

/-- The keys of an association list. -/
def assocKeys {κ α : Type} (l : List (κ × α)) : List κ := l.map Prod.fst

/-- The whole observable state: the `struct mScriptContext` fields
(`rootScope`, `engines`, `refPool`, `weakrefs`, `nextWeakref`), a heap of
live `mScriptValue` objects addressed by identity, a fresh-identity counter
for the allocator, and the event trace.  `rootScope`, `engines` and
`weakrefs` store value identities / engine-context identities, as the C
tables store pointers; `refPool` stores `mScriptValue` structs inline, as
`mScriptList` does. -/
structure World where
  rootScope : List (String × Nat)
  engines : List (String × Nat)
  refPool : List MScriptValue
  weakrefs : List (Nat × Nat)
  nextWeakref : Nat
  heap : List (Nat × MScriptValue)
  nextId : Nat
  events : List Event
  deriving DecidableEq, Repr

/-- Append one event to the trace. -/
def logEvent (w : World) (e : Event) : World :=
  { w with events := w.events ++ [e] }

/-- The collaborator `mScriptValueRef`.  Modelled from the spec (the function lives outside
`src/`): "`ref(value)` increments the count unless the Value is scalar or
sentinel (no-op in that case)".  The call itself is recorded as an event. -/
def mScriptValueRef (w : World) (id : Nat) : World :=
  let w := logEvent w (.refEv id)
  match assocLookup w.heap id with
  | none => w
  | some v =>
      match v.refs with
      | .unref => w
      | .counted n => { w with heap := assocReplace w.heap id { v with refs := .counted (n + 1) } }

/-- The collaborator `mScriptValueDeref`.  Modelled from the spec (the function lives outside
`src/`): "`deref(value)` decrements and destroys at zero, again no-op for
scalar/sentinel Values"; destruction removes the object from the heap.  The
call itself is recorded as an event. -/
def mScriptValueDeref (w : World) (id : Nat) : World :=
  let w := logEvent w (.derefEv id)
  match assocLookup w.heap id with
  | none => w
  | some v =>
      match v.refs with
      | .unref => w
      | .counted 0 => w
      | .counted 1 => { w with heap := assocRemove w.heap id }
      | .counted (n + 2) => { w with heap := assocReplace w.heap id { v with refs := .counted (n + 1) } }

/-- The collaborator `mScriptValueAlloc`.  Modelled from the spec (the function lives outside
`src/`): Values are "allocated on demand" with the caller owning one
reference; returns the fresh identity. -/
def mScriptValueAlloc (w : World) (t : MScriptType) : World × Nat :=
  ({ w with
      heap := assocInsert w.heap w.nextId { typ := t, payload := .noPayload, refs := .counted 1 }
      nextId := w.nextId + 1 }, w.nextId)

/-- Overwrite the payload of a heap object (the C stores through the returned
pointer, e.g. `value->value.u32 = weakref`). -/
def heapSetPayload (w : World) (id : Nat) (p : MScriptPayload) : World :=
  match assocLookup w.heap id with
  | none => w
  | some v => { w with heap := assocReplace w.heap id { v with payload := p } }

/-- The collaborator `mScriptValueUnwrap`.  Modelled from the spec (the function lives outside
`src/`): pool entries are "wrapper Values, each wrapping a pointer" to the
real Value; unwrapping a non-wrapper yields nothing. -/
def mScriptValueUnwrap (v : MScriptValue) : Option Nat :=
  match v.typ.base, v.payload with
  | .wrapper, .optr id => some id
  | _, _ => none

/-- The collaborator `TableInsert` on `context->weakrefs`.  Modelled from the spec: a generic
mapping utility owning its values through the deinitializer installed at
`TableInit` (`mScriptValueDeref`), which is applied to a displaced value when
an insert hits an occupied key. -/
def weakrefsInsert (w : World) (handle : Nat) (vid : Nat) : World :=
  match assocLookup w.weakrefs handle with
  | some old =>
      let w := mScriptValueDeref w old
      { w with weakrefs := assocReplace w.weakrefs handle vid }
  | none => { w with weakrefs := w.weakrefs ++ [(handle, vid)] }

/-- The collaborator `TableRemove` on `context->weakrefs`: removing an entry applies the
table's deinitializer (`mScriptValueDeref`) to the held value, releasing the
table's strong reference.  No-op when the handle is absent. -/
def weakrefsRemove (w : World) (handle : Nat) : World :=
  match assocLookup w.weakrefs handle with
  | some vid =>
      let w := mScriptValueDeref w vid
      { w with weakrefs := assocRemove w.weakrefs handle }
  | none => w

/-- The `while (TableLookup(&context->weakrefs, context->nextWeakref)) ++`
loop of `mScriptContextSetWeakref`, with the `uint32_t` increment wrapping
modulo `2^32`.  The fuel (one unit per possible handle) makes the search
total: `none` models the C loop spinning forever because every handle is
occupied. -/
def advanceWeakref (t : List (Nat × Nat)) : Nat → Nat → Option Nat
  | 0, _ => none
  | fuel + 1, n =>
      match assocLookup t n with
      | some _ => advanceWeakref t fuel ((n + 1) % 2 ^ 32)
      | none => some n

/-- The function `mScriptContextInit`: empty root scope, engine map, reference pool and
weak-reference table; `nextWeakref = 0`.  The heap/allocator/trace of the
surrounding world start empty as well. -/
def mScriptContextInit : World :=
  { rootScope := [], engines := [], refPool := [], weakrefs := [],
    nextWeakref := 0, heap := [], nextId := 0, events := [] }

/-- The function `mScriptContextSetWeakref`: ref the value, insert it at `nextWeakref`,
remember that handle, then advance `nextWeakref` (wrapping at `2^32`) past
every occupied handle.  `none` models the skip loop never terminating. -/
def mScriptContextSetWeakref (w : World) (vid : Nat) : Option (World × Nat) :=
  let w := mScriptValueRef w vid
  let handle := w.nextWeakref
  let w := weakrefsInsert w handle vid
  match advanceWeakref w.weakrefs (2 ^ 32) ((handle + 1) % 2 ^ 32) with
  | some n => some ({ w with nextWeakref := n }, handle)
  | none => none

/-- The function `mScriptContextMakeWeakref`: install the value in the table, drop the
caller's reference (ownership moves to the table), allocate a fresh
weak-reference-typed Value wrapping the handle and return its identity. -/
def mScriptContextMakeWeakref (w : World) (vid : Nat) : Option (World × Nat) :=
  match mScriptContextSetWeakref w vid with
  | none => none
  | some (w, handle) =>
      let w := mScriptValueDeref w vid
      let (w, wid) := mScriptValueAlloc w { base := .weakref }
      let w := heapSetPayload w wid (.u32 handle)
      some (w, wid)

/-- The function `mScriptContextAccessWeakref`: a non-weak-reference-typed value passes
through unchanged; a weak-reference value resolves its `u32` handle through
the table (`none` models the C `NULL` for a cleared handle, and also an
invalid input pointer). -/
def mScriptContextAccessWeakref (w : World) (vid : Nat) : World × Option Nat :=
  match assocLookup w.heap vid with
  | none => (w, none)
  | some v =>
      if v.typ.base = .weakref then
        match v.payload with
        | .u32 handle => (w, assocLookup w.weakrefs handle)
        | _ => (w, none)
      else
        (w, some vid)

/-- The function `mScriptContextClearWeakref`: remove the handle's entry, releasing the
table's reference; idempotent.  The call is recorded as an event so that
ordering against engine notifications is observable. -/
def mScriptContextClearWeakref (w : World) (handle : Nat) : World :=
  let w := logEvent w (.clearWeakrefEv handle)
  weakrefsRemove w handle

/-- The function `mScriptContextFillPool`: a value in the `mSCRIPT_VALUE_UNREF` sentinel
state is skipped; a scalar-typed (`SINT`/`UINT`/`FLOAT`) value is skipped;
otherwise an internal wrapper entry (wrapper type, payload pointing at the
value, sentinel refcount) is appended to `refPool`.  The value's own
reference count is not touched. -/
def mScriptContextFillPool (w : World) (vid : Nat) : World :=
  match assocLookup w.heap vid with
  | none => w
  | some v =>
      if v.refs = .unref then w
      else
        match v.typ.base with
        | .sint => w
        | .uint => w
        | .float => w
        | _ =>
            { w with refPool :=
                w.refPool ++ [{ typ := { base := .wrapper }, payload := .optr vid, refs := .unref }] }

/-- One iteration of the drain loop: unwrap the pool entry and, when it
wraps a value, deref it. -/
def drainStep (w : World) (entry : MScriptValue) : World :=
  match mScriptValueUnwrap entry with
  | some id => mScriptValueDeref w id
  | none => w

/-- The function `mScriptContextDrainPool`: deref every unwrappable entry of `refPool`
in order, then clear the list. -/
def mScriptContextDrainPool (w : World) : World :=
  let w2 := w.refPool.foldl drainStep w
  { w2 with refPool := [] }

/-- The function `mScriptContextRegisterEngine`: the engine descriptor's `create` factory
is external engine code, so its result is a parameter (`some` engine-context
identity, or `none` on failure).  On success the context is stored in
`engines` under the engine's name; either way the factory's result is
returned. -/
def mScriptContextRegisterEngine (w : World) (name : String) (created : Option Nat) :
    World × Option Nat :=
  match created with
  | some ectx => ({ w with engines := assocInsert w.engines name ectx }, some ectx)
  | none => (w, none)

/-- The collaborator `HashTableInsert` on `context->rootScope`.  Modelled from the spec: a
generic mapping utility owning its values through the deinitializer
installed at `HashTableInit` (`mScriptValueDeref`), applied to a displaced
value when an insert hits an occupied key. -/
def rootScopeInsert (w : World) (key : String) (vid : Nat) : World :=
  match assocLookup w.rootScope key with
  | some old =>
      let w := mScriptValueDeref w old
      { w with rootScope := assocReplace w.rootScope key vid }
  | none => { w with rootScope := w.rootScope ++ [(key, vid)] }

/-- The collaborator `HashTableRemove` on `context->rootScope`: removal applies the table's
deinitializer (`mScriptValueDeref`) to the stored value. -/
def rootScopeRemove (w : World) (key : String) : World :=
  match assocLookup w.rootScope key with
  | some vid =>
      let w := mScriptValueDeref w vid
      { w with rootScope := assocRemove w.rootScope key }
  | none => w

/-- Read `value->value.u32` of a heap object (defaults to 0 on a non-`u32`
payload, a state no reachable caller produces). -/
def heapU32 (w : World) (id : Nat) : Nat :=
  match assocLookup w.heap id with
  | some v =>
      match v.payload with
      | .u32 n => n
      | _ => 0
  | none => 0

/-- The call `HashTableEnumerate(&context->engines, _contextAddGlobal, &pair)`: call
every engine context's `setGlobal` with the same key / wrapper-value pair,
in enumeration order.  The engine callback is external code; the call is
recorded as an event. -/
def enginesFanSetGlobal (w : World) (key : String) (v : Option Nat) : World :=
  w.engines.foldl (fun acc e => logEvent acc (.engineSetGlobal e.1 key v)) w

/-- The function `mScriptContextSetGlobal`: if the key already has a root-scope entry,
clear that entry's weak-reference handle; install the value in the
weak-reference table; allocate a fresh weak-reference-typed wrapper for the
handle; store the wrapper in `rootScope`; fan the same key/wrapper pair out
to every registered engine.  `none` models the handle-skip loop never
terminating. -/
def mScriptContextSetGlobal (w : World) (key : String) (vid : Nat) : Option World :=
  let w :=
    match assocLookup w.rootScope key with
    | some oldId => mScriptContextClearWeakref w (heapU32 w oldId)
    | none => w
  match mScriptContextSetWeakref w vid with
  | none => none
  | some (w, handle) =>
      let (w, wid) := mScriptValueAlloc w { base := .weakref }
      let w := heapSetPayload w wid (.u32 handle)
      let w := rootScopeInsert w key wid
      some (enginesFanSetGlobal w key (some wid))

/-- The function `mScriptContextRemoveGlobal`: no-op when the key is absent; otherwise
notify every engine (`setGlobal(key, NULL)`) first, then clear the root
entry's weak-reference handle and erase the root-scope entry. -/
def mScriptContextRemoveGlobal (w : World) (key : String) : World :=
  match assocLookup w.rootScope key with
  | none => w
  | some _ =>
      let w := enginesFanSetGlobal w key none
      match assocLookup w.rootScope key with
      | some oldId =>
          let w := mScriptContextClearWeakref w (heapU32 w oldId)
          rootScopeRemove w key
      | none => w

/-- The call `HashTableEnumerate(&context->engines, _contextFindForFile, &info)`: walk
the engines in enumeration order carrying `info->context`; once an engine
has been found, later iterations return immediately (no further `isScript`
probe); until then each engine's `isScript` is called (recorded as an event)
and the first to answer true is remembered.  `isScript` is external engine
code, passed as a function of the engine name. -/
def contextFindForFile (isScript : String → String → Nat → Bool) (name : String) (vf : Nat) :
    World → Option String → List (String × Nat) → World × Option String
  | w, found, [] => (w, found)
  | w, found, (ename, _) :: rest =>
      match found with
      | some f => contextFindForFile isScript name vf w (some f) rest
      | none =>
          let w := logEvent w (.engineIsScript ename name vf)
          if isScript ename name vf then
            contextFindForFile isScript name vf w (some ename) rest
          else
            contextFindForFile isScript name vf w none rest

/-- The function `mScriptContextLoadVF`: probe the registered engines for one that
recognizes the resource; if none does, return false; otherwise call the
selected engine's `load` with the resource and a `NULL` auxiliary-error
slot (recorded as an event) and return its result.  `load` is external
engine code, passed as a function of the engine name. -/
def mScriptContextLoadVF (isScript : String → String → Nat → Bool)
    (load : String → Nat → Bool) (w : World) (name : String) (vf : Nat) : World × Bool :=
  match contextFindForFile isScript name vf w none w.engines with
  | (w, none) => (w, false)
  | (w, some ename) =>
      let w := logEvent w (.engineLoad ename vf none)
      (w, load ename vf)

/-- The C `struct mScriptFunction`: the native call operation and its captured
context pointer.  The call operation is external code: a function from the
(coerced) frame arguments and the context pointer to the boolean result. -/
structure MScriptFunction where
  call : List MScriptValue → Nat → Bool
  context : Nat

/-- The function `mScriptInvoke`: fail unless the value's type discriminator is
function-typed; coerce the frame's arguments against the declared parameter
signature (the coercion rules are the type-system collaborator's, passed as
a parameter returning the coerced argument list or `none`); on success,
delegate to the function value's native call operation with the coerced
frame and its captured context.  `fns` resolves the value's opaque function
pointer. -/
def mScriptInvoke (coerce : List MScriptTypeBase → List MScriptValue → Option (List MScriptValue))
    (fns : Nat → Option MScriptFunction) (val : MScriptValue) (args : List MScriptValue) : Bool :=
  if val.typ.base = .function then
    match coerce val.typ.functionParams args with
    | none => false
    | some coerced =>
        match val.payload with
        | .optr fid =>
            match fns fid with
            | some fn => fn.call coerced fn.context
            | none => false
        | _ => false
  else
    false

/-! ### Association-list lemmas -/

/-- Worlds reachable from an initialized context by any sequence of
`mScriptContextSetWeakref` and `mScriptContextClearWeakref` calls. -/
inductive WeakrefReachable : World → Prop where
  | init : WeakrefReachable mScriptContextInit
  | set {w w2 : World} {vid h : Nat} : WeakrefReachable w →
      mScriptContextSetWeakref w vid = some (w2, h) → WeakrefReachable w2
  | clear {w : World} (handle : Nat) : WeakrefReachable w →
      WeakrefReachable (mScriptContextClearWeakref w handle)

/-- The allocation invariant: the running counter is unoccupied and no two
live entries share a handle. -/
def WeakrefInv (w : World) : Prop :=
  assocLookup w.weakrefs w.nextWeakref = none ∧ (assocKeys w.weakrefs).Nodup

/-- A concrete coercion collaborator for the invoke witness: arity check
only. -/
def coerceArity (ps : List MScriptTypeBase) (args : List MScriptValue) :
    Option (List MScriptValue) :=
  if ps.length = args.length then some args else none

/-- A concrete function table for the invoke witness. -/
def fnsSample : Nat → Option MScriptFunction :=
  fun fid => if fid = 0 then some ⟨fun _ c => c == 7, 7⟩ else none

/-- A concrete function-typed value for the invoke witness. -/
def valSample : MScriptValue :=
  { typ := { base := .function, functionParams := [.sint] }, payload := .optr 0,
    refs := .counted 1 }

/-- A concrete one-argument frame for the invoke witness. -/
def argsSample : List MScriptValue :=
  [{ typ := { base := .sint }, payload := .u32 3, refs := .unref }]

/-- The world produced by `mScriptContextSetWeakref` on a fresh context and
value identity 5 (used by the C2 witness). -/
def sampleSetWeakrefWorld : World :=
  { rootScope := [], engines := [], refPool := [], weakrefs := [(0, 5)],
    nextWeakref := 1, heap := [], nextId := 0, events := [.refEv 5] }

/-- A live composite (table-typed) value for witnesses. -/
def sampleTableValue : MScriptValue :=
  { typ := { base := .table }, payload := .noPayload, refs := .counted 1 }

/-- A world holding one live table-typed value at identity 0. -/
def sampleMakeWorld0 : World :=
  { mScriptContextInit with heap := [(0, sampleTableValue)], nextId := 1 }

/-- The world `mScriptContextMakeWeakref sampleMakeWorld0 0` produces
(wrapper identity 1, handle 0). -/
def sampleMakeWorld1 : World :=
  { rootScope := [], engines := [], refPool := [], weakrefs := [(0, 0)], nextWeakref := 1,
    heap := [(0, sampleTableValue),
      (1, { typ := { base := .weakref }, payload := .u32 0, refs := .counted 1 })],
    nextId := 2, events := [.refEv 0, .derefEv 0] }

/-- A scalar (sint-typed, sentinel-refcount) value for witnesses. -/
def sampleSintValue : MScriptValue :=
  { typ := { base := .sint }, payload := .u32 4, refs := .unref }

/-- A world holding a live table value (id 0) and a scalar value (id 1). -/
def samplePoolWorld : World :=
  { mScriptContextInit with heap := [(0, sampleTableValue), (1, sampleSintValue)], nextId := 2 }

/-- An engine-behavior sample: only engine "b" recognizes any resource. -/
def sampleIsScript : String → String → Nat → Bool := fun ename _ _ => ename == "b"

/-- An engine-behavior sample: every load succeeds. -/
def sampleLoad : String → Nat → Bool := fun _ _ => true

/-- A world with three registered engines. -/
def sampleEnginesWorld : World :=
  { mScriptContextInit with engines := [("a", 1), ("b", 2), ("c", 3)] }

/-- A weak-reference wrapper value holding handle 0 (the old root-scope
entry of `sampleGlobalWorld`). -/
def sampleWrapperValue : MScriptValue :=
  { typ := { base := .weakref }, payload := .u32 0, refs := .counted 1 }

/-- A world with two engines and one global "x" bound through wrapper 2 to
handle 0, which holds value 0. -/
def sampleGlobalWorld : World :=
  { rootScope := [("x", 2)], engines := [("a", 1), ("b", 2)], refPool := [],
    weakrefs := [(0, 0)], nextWeakref := 1,
    heap := [(0, sampleTableValue), (2, sampleWrapperValue)], nextId := 3, events := [] }

/-- The world `mScriptContextSetGlobal sampleGlobalWorld "x" 0` produces. -/
def sampleSetGlobalResult : World :=
  { rootScope := [("x", 3)], engines := [("a", 1), ("b", 2)], refPool := [],
    weakrefs := [(1, 0)], nextWeakref := 2,
    heap := [(3, { typ := { base := .weakref }, payload := .u32 1, refs := .counted 1 })],
    nextId := 4,
    events := [.clearWeakrefEv 0, .derefEv 0, .refEv 0, .derefEv 2,
      .engineSetGlobal "a" "x" (some 3), .engineSetGlobal "b" "x" (some 3)] }

/-- The world `mScriptContextSetGlobal sampleGlobalWorld "y" 0` (a key with
no previous binding) produces. -/
def sampleSetGlobalFresh : World :=
  { rootScope := [("x", 2), ("y", 3)], engines := [("a", 1), ("b", 2)], refPool := [],
    weakrefs := [(0, 0), (1, 0)], nextWeakref := 2,
    heap := [(0, { typ := { base := .table }, payload := .noPayload, refs := .counted 2 }),
      (2, sampleWrapperValue),
      (3, { typ := { base := .weakref }, payload := .u32 1, refs := .counted 1 })],
    nextId := 4,
    events := [.refEv 0, .engineSetGlobal "a" "y" (some 3),
      .engineSetGlobal "b" "y" (some 3)] }

theorem assocLookup_append_of_none {κ α : Type} [DecidableEq κ] {l₁ : List (κ × α)}
    (l₂ : List (κ × α)) {k : κ} (h : assocLookup l₁ k = none) :
    assocLookup (l₁ ++ l₂) k = assocLookup l₂ k := by
  induction l₁ with
  | nil => rfl
  | cons a rest ih =>
      obtain ⟨ka, va⟩ := a
      by_cases hk : ka = k
      · simp [assocLookup, hk] at h
      · simp only [assocLookup, hk, if_false, List.cons_append] at h ⊢
        exact ih h

theorem assocLookup_append_of_some {κ α : Type} [DecidableEq κ] {l₁ : List (κ × α)}
    (l₂ : List (κ × α)) {k : κ} {v : α} (h : assocLookup l₁ k = some v) :
    assocLookup (l₁ ++ l₂) k = some v := by
  induction l₁ with
  | nil => simp [assocLookup] at h
  | cons a rest ih =>
      obtain ⟨ka, va⟩ := a
      by_cases hk : ka = k
      · simp only [assocLookup, hk, if_true, List.cons_append] at h ⊢
        exact h
      · simp only [assocLookup, hk, if_false, List.cons_append] at h ⊢
        exact ih h

theorem assocLookup_replace_self {κ α : Type} [DecidableEq κ] {l : List (κ × α)} {k : κ}
    (v : α) (h : (assocLookup l k).isSome) :
    assocLookup (assocReplace l k v) k = some v := by
  induction l with
  | nil => simp [assocLookup] at h
  | cons a rest ih =>
      obtain ⟨ka, va⟩ := a
      by_cases hk : ka = k
      · simp [assocReplace, assocLookup, hk]
      · simp only [assocLookup, hk, if_false] at h
        simp only [assocReplace, hk, if_false, assocLookup]
        exact ih h

theorem assocLookup_replace_ne {κ α : Type} [DecidableEq κ] {l : List (κ × α)} {k k' : κ}
    (v : α) (h : k' ≠ k) :
    assocLookup (assocReplace l k v) k' = assocLookup l k' := by
  induction l with
  | nil => rfl
  | cons a rest ih =>
      obtain ⟨ka, va⟩ := a
      by_cases hk : ka = k
      · subst hk
        simp [assocReplace, assocLookup, Ne.symm h]
      · simp only [assocReplace, hk, if_false, assocLookup]
        by_cases hk2 : ka = k'
        · simp [hk2]
        · simp [hk2, ih]

theorem assocLookup_remove_ne {κ α : Type} [DecidableEq κ] {l : List (κ × α)} {k k' : κ}
    (h : k' ≠ k) :
    assocLookup (assocRemove l k) k' = assocLookup l k' := by
  induction l with
  | nil => rfl
  | cons a rest ih =>
      obtain ⟨ka, va⟩ := a
      by_cases hk : ka = k
      · subst hk
        simp [assocRemove, assocLookup, Ne.symm h]
      · simp only [assocRemove, hk, if_false, assocLookup]
        by_cases hk2 : ka = k'
        · simp [hk2]
        · simp [hk2, ih]

theorem assocLookup_eq_none_of_not_mem {κ α : Type} [DecidableEq κ] {l : List (κ × α)} {k : κ}
    (h : k ∉ assocKeys l) : assocLookup l k = none := by
  induction l with
  | nil => rfl
  | cons a rest ih =>
      obtain ⟨ka, va⟩ := a
      simp only [assocKeys, List.map_cons, List.mem_cons] at h
      push_neg at h
      rw [assocLookup, if_neg (Ne.symm h.1)]
      exact ih h.2

theorem mem_keys_of_assocLookup_some {κ α : Type} [DecidableEq κ] {l : List (κ × α)} {k : κ}
    {v : α} (h : assocLookup l k = some v) : k ∈ assocKeys l := by
  induction l with
  | nil => simp [assocLookup] at h
  | cons a rest ih =>
      obtain ⟨ka, va⟩ := a
      by_cases hk : ka = k
      · simp [assocKeys, hk]
      · simp only [assocLookup, hk, if_false] at h
        simp only [assocKeys, List.map_cons, List.mem_cons]
        exact Or.inr (ih h)

theorem assocLookup_remove_self {κ α : Type} [DecidableEq κ] {l : List (κ × α)} {k : κ}
    (h : (assocKeys l).Nodup) : assocLookup (assocRemove l k) k = none := by
  induction l with
  | nil => rfl
  | cons a rest ih =>
      obtain ⟨ka, va⟩ := a
      simp only [assocKeys, List.map_cons, List.nodup_cons] at h
      by_cases hk : ka = k
      · subst hk
        simp only [assocRemove, if_true]
        exact assocLookup_eq_none_of_not_mem h.1
      · simp only [assocRemove, hk, if_false, assocLookup]
        exact ih h.2

theorem assocRemove_sublist {κ α : Type} [DecidableEq κ] (l : List (κ × α)) (k : κ) :
    (assocRemove l k).Sublist l := by
  induction l with
  | nil => simp [assocRemove]
  | cons a rest ih =>
      obtain ⟨ka, va⟩ := a
      by_cases hk : ka = k
      · simp only [assocRemove, hk, if_true]
        exact List.Sublist.cons _ (List.Sublist.refl rest)
      · simp only [assocRemove, hk, if_false]
        exact ih.cons₂ _

theorem assocKeys_remove_nodup {κ α : Type} [DecidableEq κ] {l : List (κ × α)} (k : κ)
    (h : (assocKeys l).Nodup) : (assocKeys (assocRemove l k)).Nodup :=
  h.sublist (List.Sublist.map Prod.fst (assocRemove_sublist l k))

theorem assocKeys_replace {κ α : Type} [DecidableEq κ] (l : List (κ × α)) (k : κ) (v : α) :
    assocKeys (assocReplace l k v) = assocKeys l := by
  induction l with
  | nil => rfl
  | cons a rest ih =>
      obtain ⟨ka, va⟩ := a
      by_cases hk : ka = k
      · simp [assocReplace, assocKeys, hk]
      · simp [assocReplace, assocKeys, hk] at ih ⊢
        exact ih

theorem assocLookup_insert_self {κ α : Type} [DecidableEq κ] (l : List (κ × α)) (k : κ)
    (v : α) : assocLookup (assocInsert l k v) k = some v := by
  unfold assocInsert
  cases h : assocLookup l k with
  | none => exact (assocLookup_append_of_none [(k, v)] h).trans (by simp [assocLookup])
  | some old => exact assocLookup_replace_self v (by simp [h])

theorem assocLookup_insert_ne {κ α : Type} [DecidableEq κ] (l : List (κ × α)) {k k' : κ}
    (v : α) (h : k' ≠ k) : assocLookup (assocInsert l k v) k' = assocLookup l k' := by
  unfold assocInsert
  cases hl : assocLookup l k with
  | none =>
      cases h2 : assocLookup l k' with
      | none =>
          exact (assocLookup_append_of_none [(k, v)] h2).trans
            (by rw [assocLookup, if_neg (Ne.symm h)]; rfl)
      | some w => exact assocLookup_append_of_some [(k, v)] h2
  | some old => exact assocLookup_replace_ne v h

theorem assocRemove_eq_of_none {κ α : Type} [DecidableEq κ] {l : List (κ × α)} {k : κ}
    (h : assocLookup l k = none) : assocRemove l k = l := by
  induction l with
  | nil => rfl
  | cons a rest ih =>
      obtain ⟨ka, va⟩ := a
      by_cases hk : ka = k
      · simp [assocLookup, hk] at h
      · simp only [assocLookup, hk, if_false] at h
        simp only [assocRemove, hk, if_false]
        rw [ih h]

/-! ### Field lemmas for the primitive operations -/

theorem ref_events (w : World) (id : Nat) :
    (mScriptValueRef w id).events = w.events ++ [.refEv id] := by
  simp only [mScriptValueRef, logEvent]
  split
  · rfl
  · split <;> rfl

theorem ref_rootScope (w : World) (id : Nat) :
    (mScriptValueRef w id).rootScope = w.rootScope := by
  simp only [mScriptValueRef, logEvent]
  split
  · rfl
  · split <;> rfl

theorem ref_engines (w : World) (id : Nat) :
    (mScriptValueRef w id).engines = w.engines := by
  simp only [mScriptValueRef, logEvent]
  split
  · rfl
  · split <;> rfl

theorem ref_refPool (w : World) (id : Nat) :
    (mScriptValueRef w id).refPool = w.refPool := by
  simp only [mScriptValueRef, logEvent]
  split
  · rfl
  · split <;> rfl

theorem ref_weakrefs (w : World) (id : Nat) :
    (mScriptValueRef w id).weakrefs = w.weakrefs := by
  simp only [mScriptValueRef, logEvent]
  split
  · rfl
  · split <;> rfl

theorem ref_nextWeakref (w : World) (id : Nat) :
    (mScriptValueRef w id).nextWeakref = w.nextWeakref := by
  simp only [mScriptValueRef, logEvent]
  split
  · rfl
  · split <;> rfl

theorem ref_nextId (w : World) (id : Nat) :
    (mScriptValueRef w id).nextId = w.nextId := by
  simp only [mScriptValueRef, logEvent]
  split
  · rfl
  · split <;> rfl

theorem ref_heap_lookup_ne (w : World) {id id2 : Nat} (h : id2 ≠ id) :
    assocLookup (mScriptValueRef w id).heap id2 = assocLookup w.heap id2 := by
  simp only [mScriptValueRef, logEvent]
  split
  · rfl
  · split
    · rfl
    · exact assocLookup_replace_ne _ h

theorem ref_heap_keys (w : World) (id : Nat) :
    assocKeys (mScriptValueRef w id).heap = assocKeys w.heap := by
  simp only [mScriptValueRef, logEvent]
  split
  · rfl
  · split
    · rfl
    · exact assocKeys_replace _ _ _

theorem deref_events (w : World) (id : Nat) :
    (mScriptValueDeref w id).events = w.events ++ [.derefEv id] := by
  simp only [mScriptValueDeref, logEvent]
  split
  · rfl
  · split <;> rfl

theorem deref_rootScope (w : World) (id : Nat) :
    (mScriptValueDeref w id).rootScope = w.rootScope := by
  simp only [mScriptValueDeref, logEvent]
  split
  · rfl
  · split <;> rfl

theorem deref_engines (w : World) (id : Nat) :
    (mScriptValueDeref w id).engines = w.engines := by
  simp only [mScriptValueDeref, logEvent]
  split
  · rfl
  · split <;> rfl

theorem deref_refPool (w : World) (id : Nat) :
    (mScriptValueDeref w id).refPool = w.refPool := by
  simp only [mScriptValueDeref, logEvent]
  split
  · rfl
  · split <;> rfl

theorem deref_weakrefs (w : World) (id : Nat) :
    (mScriptValueDeref w id).weakrefs = w.weakrefs := by
  simp only [mScriptValueDeref, logEvent]
  split
  · rfl
  · split <;> rfl

theorem deref_nextWeakref (w : World) (id : Nat) :
    (mScriptValueDeref w id).nextWeakref = w.nextWeakref := by
  simp only [mScriptValueDeref, logEvent]
  split
  · rfl
  · split <;> rfl

theorem deref_nextId (w : World) (id : Nat) :
    (mScriptValueDeref w id).nextId = w.nextId := by
  simp only [mScriptValueDeref, logEvent]
  split
  · rfl
  · split <;> rfl

theorem deref_heap_lookup_ne (w : World) {id id2 : Nat} (h : id2 ≠ id) :
    assocLookup (mScriptValueDeref w id).heap id2 = assocLookup w.heap id2 := by
  simp only [mScriptValueDeref, logEvent]
  split
  · rfl
  · split
    · rfl
    · rfl
    · exact assocLookup_remove_ne h
    · exact assocLookup_replace_ne _ h

theorem deref_heap_keys_sub (w : World) (i : Nat) {k : Nat}
    (h : k ∈ assocKeys (mScriptValueDeref w i).heap) : k ∈ assocKeys w.heap := by
  revert h
  simp only [mScriptValueDeref, logEvent]
  split
  · intro h; exact h
  · split
    · intro h; exact h
    · intro h; exact h
    · intro h
      exact ((assocRemove_sublist _ _).map Prod.fst).mem h
    · intro h
      rw [assocKeys_replace] at h
      exact h

theorem heapSetPayload_events (w : World) (i : Nat) (p : MScriptPayload) :
    (heapSetPayload w i p).events = w.events := by
  simp only [heapSetPayload]
  split <;> rfl

theorem heapSetPayload_rootScope (w : World) (i : Nat) (p : MScriptPayload) :
    (heapSetPayload w i p).rootScope = w.rootScope := by
  simp only [heapSetPayload]
  split <;> rfl

theorem heapSetPayload_engines (w : World) (i : Nat) (p : MScriptPayload) :
    (heapSetPayload w i p).engines = w.engines := by
  simp only [heapSetPayload]
  split <;> rfl

theorem heapSetPayload_weakrefs (w : World) (i : Nat) (p : MScriptPayload) :
    (heapSetPayload w i p).weakrefs = w.weakrefs := by
  simp only [heapSetPayload]
  split <;> rfl

theorem heapSetPayload_nextWeakref (w : World) (i : Nat) (p : MScriptPayload) :
    (heapSetPayload w i p).nextWeakref = w.nextWeakref := by
  simp only [heapSetPayload]
  split <;> rfl

theorem heapSetPayload_nextId (w : World) (i : Nat) (p : MScriptPayload) :
    (heapSetPayload w i p).nextId = w.nextId := by
  simp only [heapSetPayload]
  split <;> rfl

theorem heapSetPayload_heap_lookup_self (w : World) {i : Nat} {v : MScriptValue}
    (p : MScriptPayload) (h : assocLookup w.heap i = some v) :
    assocLookup (heapSetPayload w i p).heap i = some { v with payload := p } := by
  simp only [heapSetPayload, h]
  exact assocLookup_replace_self _ (by simp [h])

theorem heapSetPayload_heap_lookup_ne (w : World) {i i2 : Nat} (p : MScriptPayload)
    (h : i2 ≠ i) :
    assocLookup (heapSetPayload w i p).heap i2 = assocLookup w.heap i2 := by
  simp only [heapSetPayload]
  split
  · rfl
  · exact assocLookup_replace_ne _ h

theorem weakrefsInsert_lookup_self (w : World) (handle vid : Nat) :
    assocLookup (weakrefsInsert w handle vid).weakrefs handle = some vid := by
  simp only [weakrefsInsert]
  split
  · next old hold =>
      have : (assocLookup w.weakrefs handle).isSome := by simp [hold]
      simpa [deref_weakrefs] using assocLookup_replace_self vid this
  · next hnone =>
      exact (assocLookup_append_of_none [(handle, vid)] hnone).trans (by simp [assocLookup])

theorem weakrefsInsert_lookup_ne (w : World) {handle h2 : Nat} (vid : Nat) (hne : h2 ≠ handle) :
    assocLookup (weakrefsInsert w handle vid).weakrefs h2 = assocLookup w.weakrefs h2 := by
  simp only [weakrefsInsert]
  split
  · simpa [deref_weakrefs] using assocLookup_replace_ne vid hne
  · show assocLookup (w.weakrefs ++ [(handle, vid)]) h2 = assocLookup w.weakrefs h2
    cases hw : assocLookup w.weakrefs h2 with
    | none =>
        refine (assocLookup_append_of_none [(handle, vid)] hw).trans ?e
        rw [assocLookup, if_neg (Ne.symm hne)]
        rfl
    | some x => exact assocLookup_append_of_some [(handle, vid)] hw

theorem weakrefsInsert_rootScope (w : World) (handle vid : Nat) :
    (weakrefsInsert w handle vid).rootScope = w.rootScope := by
  simp only [weakrefsInsert]
  split
  · rw [deref_rootScope]
  · rfl

theorem weakrefsInsert_engines (w : World) (handle vid : Nat) :
    (weakrefsInsert w handle vid).engines = w.engines := by
  simp only [weakrefsInsert]
  split
  · rw [deref_engines]
  · rfl

theorem weakrefsInsert_refPool (w : World) (handle vid : Nat) :
    (weakrefsInsert w handle vid).refPool = w.refPool := by
  simp only [weakrefsInsert]
  split
  · rw [deref_refPool]
  · rfl

theorem weakrefsInsert_nextWeakref (w : World) (handle vid : Nat) :
    (weakrefsInsert w handle vid).nextWeakref = w.nextWeakref := by
  simp only [weakrefsInsert]
  split
  · rw [deref_nextWeakref]
  · rfl

theorem weakrefsInsert_nextId (w : World) (handle vid : Nat) :
    (weakrefsInsert w handle vid).nextId = w.nextId := by
  simp only [weakrefsInsert]
  split
  · rw [deref_nextId]
  · rfl

theorem weakrefsInsert_of_none (w : World) {handle : Nat} (vid : Nat)
    (h : assocLookup w.weakrefs handle = none) :
    weakrefsInsert w handle vid = { w with weakrefs := w.weakrefs ++ [(handle, vid)] } := by
  simp only [weakrefsInsert, h]

theorem weakrefsRemove_weakrefs (w : World) (handle : Nat) :
    (weakrefsRemove w handle).weakrefs = assocRemove w.weakrefs handle := by
  simp only [weakrefsRemove]
  split
  · rw [deref_weakrefs]
  · next h => rw [assocRemove_eq_of_none h]

theorem weakrefsRemove_of_some (w : World) {handle vid : Nat}
    (h : assocLookup w.weakrefs handle = some vid) :
    weakrefsRemove w handle =
      { mScriptValueDeref w vid with weakrefs := assocRemove w.weakrefs handle } := by
  simp only [weakrefsRemove, h, deref_weakrefs]

theorem weakrefsRemove_of_none (w : World) {handle : Nat}
    (h : assocLookup w.weakrefs handle = none) : weakrefsRemove w handle = w := by
  simp only [weakrefsRemove, h]

theorem rootScopeInsert_of_some (w : World) {key : String} {old : Nat} (vid : Nat)
    (h : assocLookup w.rootScope key = some old) :
    rootScopeInsert w key vid =
      { mScriptValueDeref w old with rootScope := assocReplace w.rootScope key vid } := by
  simp only [rootScopeInsert, h, deref_rootScope]

theorem rootScopeInsert_of_none (w : World) {key : String} (vid : Nat)
    (h : assocLookup w.rootScope key = none) :
    rootScopeInsert w key vid = { w with rootScope := w.rootScope ++ [(key, vid)] } := by
  simp only [rootScopeInsert, h]

theorem rootScopeRemove_of_some (w : World) {key : String} {vid : Nat}
    (h : assocLookup w.rootScope key = some vid) :
    rootScopeRemove w key =
      { mScriptValueDeref w vid with rootScope := assocRemove w.rootScope key } := by
  simp only [rootScopeRemove, h, deref_rootScope]

theorem clearWeakref_of_some (w : World) {handle vid : Nat}
    (h : assocLookup w.weakrefs handle = some vid) :
    mScriptContextClearWeakref w handle =
      { mScriptValueDeref (logEvent w (.clearWeakrefEv handle)) vid with
          weakrefs := assocRemove w.weakrefs handle } := by
  simp only [mScriptContextClearWeakref]
  rw [weakrefsRemove_of_some]
  · rfl
  · exact h

theorem clearWeakref_of_none (w : World) {handle : Nat}
    (h : assocLookup w.weakrefs handle = none) :
    mScriptContextClearWeakref w handle = logEvent w (.clearWeakrefEv handle) := by
  simp only [mScriptContextClearWeakref]
  exact weakrefsRemove_of_none _ (by simpa [logEvent] using h)

/-- The events produced by a fold that only logs one event per list element. -/
theorem foldl_logEvent (f : String × Nat → Event) (l : List (String × Nat)) (w : World) :
    l.foldl (fun acc e => logEvent acc (f e)) w = { w with events := w.events ++ l.map f } := by
  induction l generalizing w with
  | nil => simp
  | cons a rest ih =>
      simp only [List.foldl_cons, List.map_cons]
      rw [ih]
      simp [logEvent]

theorem enginesFanSetGlobal_eq (w : World) (key : String) (v : Option Nat) :
    enginesFanSetGlobal w key v =
      { w with events := w.events ++ w.engines.map (fun e => .engineSetGlobal e.1 key v) } := by
  simp only [enginesFanSetGlobal]
  exact foldl_logEvent _ _ _

/-- Postcondition of the handle-skip loop: when it yields a handle, that
handle is unoccupied and (for an in-range start) in range. -/
theorem advanceWeakref_spec (t : List (Nat × Nat)) :
    ∀ fuel n m, n < 2 ^ 32 → advanceWeakref t fuel n = some m →
      assocLookup t m = none ∧ m < 2 ^ 32 := by
  intro fuel
  induction fuel with
  | zero => intro n m _ h; simp [advanceWeakref] at h
  | succ fuel ih =>
      intro n m hn h
      rw [advanceWeakref] at h
      cases hl : assocLookup t n with
      | some v =>
          rw [hl] at h
          exact ih _ _ (Nat.mod_lt _ (by positivity)) h
      | none =>
          rw [hl] at h
          cases h
          exact ⟨hl, hn⟩

/-- Explicit characterization of a successful `mScriptContextSetWeakref`:
the returned handle is the incoming `nextWeakref`, the value is inserted
there (after the value is ref'd), and the new `nextWeakref` is the loop's
result. -/
theorem setWeakref_eq (w : World) (vid : Nat) (w2 : World) (h : Nat)
    (hs : mScriptContextSetWeakref w vid = some (w2, h)) :
    h = w.nextWeakref ∧
    ∃ n, advanceWeakref (weakrefsInsert (mScriptValueRef w vid) w.nextWeakref vid).weakrefs
          (2 ^ 32) ((w.nextWeakref + 1) % 2 ^ 32) = some n ∧
        w2 = { weakrefsInsert (mScriptValueRef w vid) w.nextWeakref vid with nextWeakref := n } := by
  rw [mScriptContextSetWeakref] at hs
  simp only [ref_nextWeakref] at hs
  cases ha : advanceWeakref (weakrefsInsert (mScriptValueRef w vid) w.nextWeakref vid).weakrefs
      (2 ^ 32) ((w.nextWeakref + 1) % 2 ^ 32) with
  | none => rw [ha] at hs; cases hs
  | some n =>
      rw [ha] at hs
      cases hs
      exact ⟨rfl, n, rfl, rfl⟩

theorem clearWeakref_nextWeakref (w : World) (handle : Nat) :
    (mScriptContextClearWeakref w handle).nextWeakref = w.nextWeakref := by
  simp only [mScriptContextClearWeakref, weakrefsRemove, logEvent]
  split
  · rw [deref_nextWeakref]
  · rfl

theorem clearWeakref_rootScope (w : World) (handle : Nat) :
    (mScriptContextClearWeakref w handle).rootScope = w.rootScope := by
  simp only [mScriptContextClearWeakref, weakrefsRemove, logEvent]
  split
  · rw [deref_rootScope]
  · rfl

theorem clearWeakref_engines (w : World) (handle : Nat) :
    (mScriptContextClearWeakref w handle).engines = w.engines := by
  simp only [mScriptContextClearWeakref, weakrefsRemove, logEvent]
  split
  · rw [deref_engines]
  · rfl

theorem clearWeakref_refPool (w : World) (handle : Nat) :
    (mScriptContextClearWeakref w handle).refPool = w.refPool := by
  simp only [mScriptContextClearWeakref, weakrefsRemove, logEvent]
  split
  · rw [deref_refPool]
  · rfl

theorem clearWeakref_nextId (w : World) (handle : Nat) :
    (mScriptContextClearWeakref w handle).nextId = w.nextId := by
  simp only [mScriptContextClearWeakref, weakrefsRemove, logEvent]
  split
  · rw [deref_nextId]
  · rfl

theorem clearWeakref_weakrefs (w : World) (handle : Nat) :
    (mScriptContextClearWeakref w handle).weakrefs = assocRemove w.weakrefs handle := by
  simp only [mScriptContextClearWeakref]
  rw [weakrefsRemove_weakrefs]
  rfl

theorem lookup_isSome_of_mem_keys {κ α : Type} [DecidableEq κ] {l : List (κ × α)} {k : κ}
    (h : k ∈ assocKeys l) : (assocLookup l k).isSome := by
  induction l with
  | nil => simp [assocKeys] at h
  | cons a rest ih =>
      obtain ⟨ka, va⟩ := a
      by_cases hk : ka = k
      · simp [assocLookup, hk]
      · simp only [assocKeys, List.map_cons, List.mem_cons] at h
        rcases h with h | h
        · exact absurd h.symm hk
        · simp only [assocLookup, hk, if_false]
          exact ih h

/-! ### The weak-reference handle-allocation invariant (claim C2) -/

theorem weakrefInv_preserved_set {w : World} (inv : WeakrefInv w) {vid : Nat} {w2 : World}
    {h : Nat} (hs : mScriptContextSetWeakref w vid = some (w2, h)) : WeakrefInv w2 := by
  obtain ⟨hh, n, hadv, hw2⟩ := setWeakref_eq w vid w2 h hs
  have hfree : assocLookup (mScriptValueRef w vid).weakrefs w.nextWeakref = none := by
    rw [ref_weakrefs]; exact inv.1
  have hins := weakrefsInsert_of_none (mScriptValueRef w vid) vid hfree
  constructor
  · have := (advanceWeakref_spec _ _ _ _ (Nat.mod_lt _ (by positivity)) hadv).1
    rw [hw2]
    exact this
  · rw [hw2]
    show (assocKeys (weakrefsInsert (mScriptValueRef w vid) w.nextWeakref vid).weakrefs).Nodup
    rw [hins]
    show (assocKeys ((mScriptValueRef w vid).weakrefs ++ [(w.nextWeakref, vid)])).Nodup
    rw [ref_weakrefs]
    have hnotmem : w.nextWeakref ∉ assocKeys w.weakrefs := by
      intro hmem
      have := lookup_isSome_of_mem_keys hmem
      rw [inv.1] at this
      cases this
    simp only [assocKeys, List.map_append, List.map_cons, List.map_nil]
    rw [List.nodup_append]
    exact ⟨inv.2, List.nodup_singleton _, by
      intro a ha hb
      simp only [List.mem_singleton] at hb
      subst hb
      exact hnotmem ha⟩

theorem weakrefInv_preserved_clear {w : World} (inv : WeakrefInv w) (handle : Nat) :
    WeakrefInv (mScriptContextClearWeakref w handle) := by
  constructor
  · rw [clearWeakref_weakrefs, clearWeakref_nextWeakref]
    by_cases hk : w.nextWeakref = handle
    · subst hk
      exact assocLookup_remove_self inv.2
    · rw [assocLookup_remove_ne hk]
      exact inv.1
  · rw [clearWeakref_weakrefs]
    exact assocKeys_remove_nodup handle inv.2

theorem weakrefInv_of_reachable {w : World} (hr : WeakrefReachable w) : WeakrefInv w := by
  induction hr with
  | init => exact ⟨rfl, List.nodup_nil⟩
  | set _ hs ih => exact weakrefInv_preserved_set ih hs
  | clear handle _ ih => exact weakrefInv_preserved_clear ih handle

/-! ### Claim theorems -/

/-- C10: `mScriptContextAccessWeakref` is a pure read: it leaves every
component of the Script Context (rootScope, engines, weakrefs, refPool,
nextWeakref), the value heap and the call trace exactly unchanged — in
particular it performs no reference-count operation, so a resolved Value is
returned as a borrowed reference. -/
theorem accessWeakref_pure_read (w : World) (vid : Nat) :
    (mScriptContextAccessWeakref w vid).1 = w := by
  simp only [mScriptContextAccessWeakref]
  split
  · rfl
  · split
    · split <;> rfl
    · rfl

/-- C8: `mScriptContextRemoveGlobal` on a key absent from the root scope is
a complete no-op: the whole world (engines, rootScope, weakrefs, heap and
the trace of engine/refcount calls) is returned unchanged. -/
theorem removeGlobal_absent_noop (w : World) (key : String)
    (h : assocLookup w.rootScope key = none) :
    mScriptContextRemoveGlobal w key = w := by
  simp only [mScriptContextRemoveGlobal, h]

theorem removeGlobal_absent_noop_witness :
    assocLookup mScriptContextInit.rootScope "missing" = none ∧
    mScriptContextRemoveGlobal mScriptContextInit "missing" = mScriptContextInit :=
  ⟨rfl, removeGlobal_absent_noop mScriptContextInit "missing" rfl⟩

/-- C9: `mScriptContextRegisterEngine` stores the engine context produced by
the descriptor's `create` factory in the engines map under the engine's name
and returns it; when the factory yields nothing, the registry is left
unchanged and the absent result is returned. -/
theorem registerEngine_spec (w : World) (name : String) (created : Option Nat) :
    (∀ e, created = some e →
      mScriptContextRegisterEngine w name created =
        ({ w with engines := assocInsert w.engines name e }, some e) ∧
      assocLookup (mScriptContextRegisterEngine w name created).1.engines name = some e) ∧
    (created = none → mScriptContextRegisterEngine w name created = (w, none)) := by
  constructor
  · intro e he
    subst he
    exact ⟨rfl, assocLookup_insert_self _ _ _⟩
  · intro he
    subst he
    rfl

theorem registerEngine_spec_witness :
    mScriptContextRegisterEngine mScriptContextInit "lua" (some 3) =
      ({ mScriptContextInit with engines := [("lua", 3)] }, some 3) ∧
    assocLookup (mScriptContextRegisterEngine mScriptContextInit "lua" (some 3)).1.engines
      "lua" = some 3 ∧
    mScriptContextRegisterEngine mScriptContextInit "lua" none = (mScriptContextInit, none) := by
  have h1 := (registerEngine_spec mScriptContextInit "lua" (some 3)).1 3 rfl
  have h2 := (registerEngine_spec mScriptContextInit "lua" none).2 rfl
  exact ⟨h1.1, h1.2, h2⟩

/-- C7: `mScriptInvoke` returns false when the value is not function-typed
(independently of the coercion and call collaborators, so neither is
performed); returns false when coercing the frame against the declared
parameter signature fails (independently of the call collaborator, so the
native call is not invoked); and when coercion succeeds it returns exactly
the native call operation's result on the coerced frame and the function's
captured context. -/
theorem invoke_gate (coerce : List MScriptTypeBase → List MScriptValue → Option (List MScriptValue))
    (fns : Nat → Option MScriptFunction) (val : MScriptValue) (args : List MScriptValue) :
    (val.typ.base ≠ .function → mScriptInvoke coerce fns val args = false) ∧
    (coerce val.typ.functionParams args = none → mScriptInvoke coerce fns val args = false) ∧
    (∀ coerced fid fn, val.typ.base = .function →
      coerce val.typ.functionParams args = some coerced → val.payload = .optr fid →
      fns fid = some fn →
      mScriptInvoke coerce fns val args = fn.call coerced fn.context) := by
  refine ⟨?_, ?_, ?_⟩
  · intro h
    simp [mScriptInvoke, h]
  · intro h
    by_cases hb : val.typ.base = .function
    · simp [mScriptInvoke, hb, h]
    · simp [mScriptInvoke, hb]
  · intro coerced fid fn hb hc hp hf
    simp [mScriptInvoke, hb, hc, hp, hf]

theorem invoke_gate_witness :
    mScriptInvoke coerceArity fnsSample valSample argsSample = true :=
  ((invoke_gate coerceArity fnsSample valSample argsSample).2.2 argsSample 0
    ⟨fun _ c => c == 7, 7⟩ rfl rfl rfl rfl).trans rfl

/-- C2: starting from an initialized context, any sequence of
`mScriptContextSetWeakref` / `mScriptContextClearWeakref` calls maintains
that the `nextWeakref` counter is unoccupied and that no two live weakref
entries share a handle; moreover each (terminating) `mScriptContextSetWeakref`
call inserts at a handle that was not occupied, the handle it returns is
live afterwards, and the table keys stay duplicate-free. -/
theorem setWeakref_no_handle_collision (w : World) (hr : WeakrefReachable w) :
    (assocLookup w.weakrefs w.nextWeakref = none ∧ (assocKeys w.weakrefs).Nodup) ∧
    (∀ vid w2 h, mScriptContextSetWeakref w vid = some (w2, h) →
      assocLookup w.weakrefs h = none ∧ assocLookup w2.weakrefs h = some vid ∧
      (assocKeys w2.weakrefs).Nodup) := by
  have inv := weakrefInv_of_reachable hr
  refine ⟨⟨inv.1, inv.2⟩, ?_⟩
  intro vid w2 h hs
  have hnodup2 := (weakrefInv_preserved_set inv hs).2
  obtain ⟨hh, n, hadv, hw2⟩ := setWeakref_eq w vid w2 h hs
  subst hh
  refine ⟨inv.1, ?_, hnodup2⟩
  rw [hw2]
  show assocLookup (weakrefsInsert (mScriptValueRef w vid) w.nextWeakref vid).weakrefs
    w.nextWeakref = some vid
  exact weakrefsInsert_lookup_self _ _ _

theorem setWeakref_no_handle_collision_witness :
    assocLookup sampleSetWeakrefWorld.weakrefs 0 = some 5 ∧
    (assocKeys sampleSetWeakrefWorld.weakrefs).Nodup := by
  have happ := (setWeakref_no_handle_collision mScriptContextInit WeakrefReachable.init).2
    5 sampleSetWeakrefWorld 0 (by decide)
  exact ⟨happ.2.1, happ.2.2⟩

theorem weakrefsInsert_keys_nodup (w : World) (handle vid : Nat)
    (h : (assocKeys w.weakrefs).Nodup) :
    (assocKeys (weakrefsInsert w handle vid).weakrefs).Nodup := by
  simp only [weakrefsInsert]
  split
  · next old hold =>
      show (assocKeys (assocReplace (mScriptValueDeref w old).weakrefs handle vid)).Nodup
      rw [deref_weakrefs, assocKeys_replace]
      exact h
  · next hnone =>
      show (assocKeys (w.weakrefs ++ [(handle, vid)])).Nodup
      have hnm : handle ∉ assocKeys w.weakrefs := by
        intro hm
        have hsome := lookup_isSome_of_mem_keys hm
        rw [hnone] at hsome
        cases hsome
      simp only [assocKeys, List.map_append, List.map_cons, List.map_nil]
      rw [List.nodup_append]
      refine ⟨h, List.nodup_singleton _, ?_⟩
      intro a ha hb
      simp only [List.mem_singleton] at hb
      subst hb
      exact hnm ha

theorem makeWeakref_roundtrip (w : World) (vid : Nat) (v : MScriptValue) (w1 : World) (wid : Nat)
    (hv : assocLookup w.heap vid = some v)
    (hns : v.typ.base ≠ .sint ∧ v.typ.base ≠ .uint ∧ v.typ.base ≠ .float)
    (hfresh : ∀ k ∈ assocKeys w.heap, k < w.nextId)
    (hnodup : (assocKeys w.weakrefs).Nodup)
    (hmk : mScriptContextMakeWeakref w vid = some (w1, wid)) :
    (mScriptContextAccessWeakref w1 wid).2 = some vid ∧
    (∀ w2 : World, assocLookup w2.heap wid = assocLookup w1.heap wid →
      assocLookup w2.weakrefs (heapU32 w1 wid) = some vid →
      (mScriptContextAccessWeakref w2 wid).2 = some vid) ∧
    (mScriptContextAccessWeakref (mScriptContextClearWeakref w1 (heapU32 w1 wid)) wid).2 =
      none := by
  rw [mScriptContextMakeWeakref] at hmk
  cases hset : mScriptContextSetWeakref w vid with
  | none => rw [hset] at hmk; cases hmk
  | some p =>
      obtain ⟨wa, h⟩ := p
      rw [hset] at hmk
      simp only [mScriptValueAlloc, Option.some.injEq, Prod.mk.injEq] at hmk
      obtain ⟨hw1, hwid⟩ := hmk
      obtain ⟨hh, n, hadv, hwa⟩ := setWeakref_eq w vid wa h hset
      subst hh
      subst hwa
      subst hw1
      subst hwid
      set wi := weakrefsInsert (mScriptValueRef w vid) w.nextWeakref vid with hwi
      set wd := mScriptValueDeref { wi with nextWeakref := n } vid with hwd
      set walloc : World := { wd with
        heap := assocInsert wd.heap wd.nextId
          { typ := { base := .weakref }, payload := .noPayload, refs := .counted 1 },
        nextId := wd.nextId + 1 } with hwalloc
      set wone := heapSetPayload walloc wd.nextId (.u32 w.nextWeakref) with hwone
      have hbase : assocLookup walloc.heap wd.nextId =
          some { typ := { base := .weakref }, payload := .noPayload, refs := .counted 1 } := by
        rw [hwalloc]
        exact assocLookup_insert_self _ _ _
      have hAk : assocLookup wone.heap wd.nextId =
          some { typ := { base := .weakref }, payload := MScriptPayload.u32 w.nextWeakref,
                 refs := .counted 1 } := by
        rw [hwone]
        simpa using heapSetPayload_heap_lookup_self walloc (MScriptPayload.u32 w.nextWeakref) hbase
      have hwk1 : wone.weakrefs = wi.weakrefs := by
        rw [hwone, heapSetPayload_weakrefs]
        show wd.weakrefs = wi.weakrefs
        rw [hwd, deref_weakrefs]
      have hlookwk : assocLookup wone.weakrefs w.nextWeakref = some vid := by
        rw [hwk1, hwi]
        exact weakrefsInsert_lookup_self _ _ _
      have hU : heapU32 wone wd.nextId = w.nextWeakref := by
        simp only [heapU32, hAk]
      have hnodup1 : (assocKeys wone.weakrefs).Nodup := by
        rw [hwk1, hwi]
        apply weakrefsInsert_keys_nodup
        rw [ref_weakrefs]
        exact hnodup
      have hwidval : wd.nextId = w.nextId := by
        rw [hwd, deref_nextId]
        show wi.nextId = w.nextId
        rw [hwi, weakrefsInsert_nextId, ref_nextId]
      have hvidne : vid ≠ wd.nextId := by
        rw [hwidval]
        exact Nat.ne_of_lt (hfresh vid (mem_keys_of_assocLookup_some hv))
      refine ⟨?_, ?_, ?_⟩
      · simp only [mScriptContextAccessWeakref, hAk]
        simpa using hlookwk
      · intro w2 hh2 hw2k
        rw [hU] at hw2k
        rw [hAk] at hh2
        simp only [mScriptContextAccessWeakref, hh2]
        simpa using hw2k
      · rw [hU]
        have hclear := clearWeakref_of_some wone hlookwk
        rw [hclear]
        have hheap : assocLookup
            (mScriptValueDeref (logEvent wone (.clearWeakrefEv w.nextWeakref)) vid).heap
            wd.nextId =
            some { typ := { base := .weakref }, payload := MScriptPayload.u32 w.nextWeakref,
                   refs := .counted 1 } := by
          rw [deref_heap_lookup_ne _ (Ne.symm hvidne)]
          show assocLookup wone.heap wd.nextId = _
          exact hAk
        simp only [mScriptContextAccessWeakref, hheap]
        show assocLookup (assocRemove wone.weakrefs w.nextWeakref) w.nextWeakref = none
        exact assocLookup_remove_self hnodup1

theorem makeWeakref_roundtrip_witness :
    (mScriptContextAccessWeakref sampleMakeWorld1 1).2 = some 0 ∧
    (mScriptContextAccessWeakref
      (mScriptContextClearWeakref sampleMakeWorld1 (heapU32 sampleMakeWorld1 1)) 1).2 = none := by
  have happ := makeWeakref_roundtrip sampleMakeWorld0 0 sampleTableValue sampleMakeWorld1 1
    (by decide) (by decide) (by decide) (by decide) (by decide)
  exact ⟨happ.1, happ.2.2⟩

/-- The event trace of the drain loop: one deref per unwrappable entry, in
pool order. -/
theorem foldl_drainStep_events (l : List MScriptValue) (w : World) :
    (l.foldl drainStep w).events =
      w.events ++ l.filterMap (fun e => (mScriptValueUnwrap e).map Event.derefEv) := by
  induction l generalizing w with
  | nil => simp
  | cons a rest ih =>
      rw [List.foldl_cons, ih]
      cases hu : mScriptValueUnwrap a with
      | none => simp [drainStep, hu]
      | some i => simp [drainStep, hu, deref_events]

/-- C5: `mScriptContextFillPool` skips values in the unref sentinel state and
scalar-typed (`SINT`/`UINT`/`FLOAT`) values entirely; an accepted value is
appended to the pool as a sentinel wrapper without any other state change (in
particular its reference count is untouched and no refcount call is traced);
`mScriptContextDrainPool` dereferences each tracked value exactly once, in
order, and leaves the pool empty. -/
theorem pool_fill_drain (w : World) (vid : Nat) (v : MScriptValue)
    (hv : assocLookup w.heap vid = some v) :
    (v.refs = .unref → mScriptContextFillPool w vid = w) ∧
    ((v.typ.base = .sint ∨ v.typ.base = .uint ∨ v.typ.base = .float) →
      mScriptContextFillPool w vid = w) ∧
    (v.refs ≠ .unref → v.typ.base ≠ .sint → v.typ.base ≠ .uint → v.typ.base ≠ .float →
      mScriptContextFillPool w vid =
        { w with refPool := w.refPool ++
            [{ typ := { base := .wrapper }, payload := .optr vid, refs := .unref }] }) ∧
    (mScriptContextDrainPool w).refPool = [] ∧
    (mScriptContextDrainPool w).events =
      w.events ++ w.refPool.filterMap (fun e => (mScriptValueUnwrap e).map Event.derefEv) := by
  refine ⟨?_, ?_, ?_, ?_, ?_⟩
  · intro h
    simp [mScriptContextFillPool, hv, h]
  · intro h
    by_cases hr : v.refs = .unref
    · simp [mScriptContextFillPool, hv, hr]
    · rcases h with h | h | h <;> simp [mScriptContextFillPool, hv, hr, h]
  · intro h1 h2 h3 h4
    simp only [mScriptContextFillPool, hv, if_neg h1]
  · rfl
  · show (w.refPool.foldl drainStep w).events = _
    exact foldl_drainStep_events _ _

theorem pool_fill_drain_witness :
    mScriptContextFillPool samplePoolWorld 1 = samplePoolWorld ∧
    (mScriptContextDrainPool (mScriptContextFillPool samplePoolWorld 0)).refPool = [] ∧
    (mScriptContextDrainPool (mScriptContextFillPool samplePoolWorld 0)).events =
      [.derefEv 0] := by
  have hskip := (pool_fill_drain samplePoolWorld 1 sampleSintValue (by decide)).2.1
    (Or.inl (by decide))
  have hfill := (pool_fill_drain samplePoolWorld 0 sampleTableValue (by decide)).2.2.1
    (by decide) (by decide) (by decide) (by decide)
  have hdrain := pool_fill_drain (mScriptContextFillPool samplePoolWorld 0) 0 sampleTableValue
    (by rw [hfill]; decide)
  refine ⟨hskip, hdrain.2.2.2.1, ?_⟩
  rw [hdrain.2.2.2.2, hfill]
  decide

/-- A found engine context short-circuits every later probe: the walk
returns it with no further events. -/
theorem findForFile_found (isScript : String → String → Nat → Bool) (name : String) (vf : Nat)
    (w : World) (f : String) (l : List (String × Nat)) :
    contextFindForFile isScript name vf w (some f) l = (w, some f) := by
  induction l with
  | nil => rfl
  | cons a rest ih => rw [contextFindForFile]; exact ih

/-- When no engine in the list recognizes the resource, every engine is
probed (in order) and nothing is found. -/
theorem findForFile_all_false (isScript : String → String → Nat → Bool) (name : String)
    (vf : Nat) (l : List (String × Nat)) (w : World)
    (hall : ∀ e ∈ l, isScript e.1 name vf = false) :
    contextFindForFile isScript name vf w none l =
      ({ w with events := w.events ++ l.map (fun e => .engineIsScript e.1 name vf) }, none) := by
  induction l generalizing w with
  | nil => simp [contextFindForFile]
  | cons a rest ih =>
      rw [contextFindForFile]
      have ha : isScript a.1 name vf = false := hall a (List.mem_cons_self a rest)
      rw [ha]
      simp only [Bool.false_eq_true, if_false]
      rw [ih _ (fun e he => hall e (List.mem_cons_of_mem a he))]
      simp [logEvent]

/-- When the engines list splits as `pre ++ sel :: rest` with every engine
of `pre` rejecting and `sel` accepting, the walk probes exactly
`pre ++ [sel]` and returns `sel`. -/
theorem findForFile_split (isScript : String → String → Nat → Bool) (name : String)
    (vf : Nat) (pre : List (String × Nat)) (sel : String × Nat) (rest : List (String × Nat))
    (w : World) (hpre : ∀ e ∈ pre, isScript e.1 name vf = false)
    (hsel : isScript sel.1 name vf = true) :
    contextFindForFile isScript name vf w none (pre ++ sel :: rest) =
      ({ w with events := w.events ++ pre.map (fun e => .engineIsScript e.1 name vf) ++
          [.engineIsScript sel.1 name vf] }, some sel.1) := by
  induction pre generalizing w with
  | nil =>
      simp only [List.nil_append, List.map_nil]
      rw [contextFindForFile, hsel]
      simp only [if_true]
      rw [findForFile_found]
      simp [logEvent]
  | cons a pre2 ih =>
      rw [List.cons_append, contextFindForFile]
      have ha : isScript a.1 name vf = false := hpre a (List.mem_cons_self a pre2)
      rw [ha]
      simp only [Bool.false_eq_true, if_false]
      rw [ih _ (fun e he => hpre e (List.mem_cons_of_mem a he))]
      simp [logEvent]

/-- C6: `mScriptContextLoadVF` probes the registered engines in enumeration
order; once one engine's `isScript` answers true no further engine is
probed, exactly that engine's `load` is invoked — with the resource and an
absent auxiliary-error slot — and its boolean result is returned unchanged;
if no engine answers true, every engine is probed, no `load` is invoked and
the result is false. -/
theorem loadVF_first_match (isScript : String → String → Nat → Bool)
    (load : String → Nat → Bool) (w : World) (name : String) (vf : Nat) :
    ((∀ e ∈ w.engines, isScript e.1 name vf = false) →
      mScriptContextLoadVF isScript load w name vf =
        ({ w with events := w.events ++
            w.engines.map (fun e => .engineIsScript e.1 name vf) }, false)) ∧
    (∀ pre sel rest, w.engines = pre ++ sel :: rest →
      (∀ e ∈ pre, isScript e.1 name vf = false) → isScript sel.1 name vf = true →
      mScriptContextLoadVF isScript load w name vf =
        ({ w with events := w.events ++ pre.map (fun e => .engineIsScript e.1 name vf) ++
            [.engineIsScript sel.1 name vf, .engineLoad sel.1 vf none] }, load sel.1 vf)) := by
  constructor
  · intro hall
    rw [mScriptContextLoadVF, findForFile_all_false isScript name vf w.engines w hall]
  · intro pre sel rest hsplit hpre hsel
    rw [mScriptContextLoadVF, hsplit, findForFile_split isScript name vf pre sel rest w hpre hsel]
    rw [← hsplit]
    simp [logEvent]

theorem loadVF_first_match_witness :
    mScriptContextLoadVF sampleIsScript sampleLoad sampleEnginesWorld "s.lua" 9 =
      ({ sampleEnginesWorld with events := [.engineIsScript "a" "s.lua" 9,
          .engineIsScript "b" "s.lua" 9, .engineLoad "b" 9 none] }, true) := by
  have happ := (loadVF_first_match sampleIsScript sampleLoad sampleEnginesWorld "s.lua" 9).2
    [("a", 1)] ("b", 2) [("c", 3)] rfl (by decide) (by decide)
  rw [happ]
  decide

theorem clearWeakref_events_of_some (w : World) {handle vid : Nat}
    (h : assocLookup w.weakrefs handle = some vid) :
    (mScriptContextClearWeakref w handle).events =
      w.events ++ [.clearWeakrefEv handle, .derefEv vid] := by
  rw [clearWeakref_of_some w h]
  show (mScriptValueDeref (logEvent w (.clearWeakrefEv handle)) vid).events = _
  rw [deref_events]
  simp [logEvent]

/-- C4: when the key is present, `mScriptContextRemoveGlobal` notifies every
registered engine with `setGlobal(key, absent)` strictly before the root
entry's weak-reference handle is cleared (and before the root-scope entry is
erased); afterwards the key is gone from the root scope, the handle is gone
from the weakrefs table, and the engines map is untouched. -/
theorem removeGlobal_notifies_then_clears (w : World) (key : String) (oid oh ouid : Nat)
    (ov : MScriptValue)
    (hold : assocLookup w.rootScope key = some oid)
    (hov : assocLookup w.heap oid = some ov)
    (hovp : ov.payload = .u32 oh)
    (hoh : assocLookup w.weakrefs oh = some ouid)
    (hroot : (assocKeys w.rootScope).Nodup)
    (hwnod : (assocKeys w.weakrefs).Nodup) :
    (mScriptContextRemoveGlobal w key).events =
      w.events ++ w.engines.map (fun e => .engineSetGlobal e.1 key none) ++
        [.clearWeakrefEv oh, .derefEv ouid, .derefEv oid] ∧
    assocLookup (mScriptContextRemoveGlobal w key).rootScope key = none ∧
    assocLookup (mScriptContextRemoveGlobal w key).weakrefs oh = none ∧
    (mScriptContextRemoveGlobal w key).engines = w.engines := by
  have hfanl : assocLookup (enginesFanSetGlobal w key none).rootScope key = some oid := by
    rw [enginesFanSetGlobal_eq]
    exact hold
  have hU : heapU32 (enginesFanSetGlobal w key none) oid = oh := by
    rw [enginesFanSetGlobal_eq]
    simp [heapU32, hov, hovp]
  have hrem : mScriptContextRemoveGlobal w key =
      rootScopeRemove (mScriptContextClearWeakref (enginesFanSetGlobal w key none) oh) key := by
    simp only [mScriptContextRemoveGlobal, hold, hfanl, hU]
  have hFwk : assocLookup (enginesFanSetGlobal w key none).weakrefs oh = some ouid := by
    rw [enginesFanSetGlobal_eq]
    exact hoh
  have hCrs : (mScriptContextClearWeakref (enginesFanSetGlobal w key none) oh).rootScope =
      w.rootScope := by
    rw [clearWeakref_rootScope, enginesFanSetGlobal_eq]
  have hClook : assocLookup
      (mScriptContextClearWeakref (enginesFanSetGlobal w key none) oh).rootScope key =
      some oid := by
    rw [hCrs]
    exact hold
  have hrr := rootScopeRemove_of_some
    (mScriptContextClearWeakref (enginesFanSetGlobal w key none) oh) hClook
  rw [hrem, hrr]
  refine ⟨?_, ?_, ?_, ?_⟩
  · show (mScriptValueDeref (mScriptContextClearWeakref (enginesFanSetGlobal w key none) oh)
        oid).events = _
    rw [deref_events, clearWeakref_events_of_some _ hFwk, enginesFanSetGlobal_eq]
    simp
  · show assocLookup (assocRemove
        (mScriptContextClearWeakref (enginesFanSetGlobal w key none) oh).rootScope key) key =
      none
    rw [hCrs]
    exact assocLookup_remove_self hroot
  · show assocLookup (mScriptValueDeref
        (mScriptContextClearWeakref (enginesFanSetGlobal w key none) oh) oid).weakrefs oh = none
    rw [deref_weakrefs, clearWeakref_weakrefs, enginesFanSetGlobal_eq]
    show assocLookup (assocRemove w.weakrefs oh) oh = none
    exact assocLookup_remove_self hwnod
  · show (mScriptValueDeref
        (mScriptContextClearWeakref (enginesFanSetGlobal w key none) oh) oid).engines = w.engines
    rw [deref_engines, clearWeakref_engines, enginesFanSetGlobal_eq]

/-- C3: for every call of `mScriptContextSetGlobal`: the root scope ends up
mapping the key to a freshly allocated weak-reference-typed Value wrapping a
fresh handle that resolves through the weakrefs table to the installed
value, and every registered engine's `setGlobal` is invoked with the same
key and that identical wrapper (the same heap identity, not a per-engine
copy) — proved both for a previously-absent key and for a key that already
had a root-scope entry; in the latter case the old entry's weak-reference
handle is cleared before the new handle is installed (visible in the trace:
the clear precedes the ref that installs the value, which precedes every
engine notification). -/
theorem setGlobal_fanout (w : World) (key : String) (vid : Nat) (wfin : World)
    (hfree : assocLookup w.weakrefs w.nextWeakref = none)
    (hfresh : ∀ k ∈ assocKeys w.heap, k < w.nextId)
    (hs : mScriptContextSetGlobal w key vid = some wfin) :
    (assocLookup w.rootScope key = none →
      wfin.events = w.events ++ [.refEv vid] ++
        w.engines.map (fun e => .engineSetGlobal e.1 key (some w.nextId)) ∧
      assocLookup wfin.rootScope key = some w.nextId ∧
      assocLookup wfin.heap w.nextId =
        some { typ := { base := .weakref }, payload := MScriptPayload.u32 w.nextWeakref,
               refs := .counted 1 } ∧
      assocLookup wfin.weakrefs w.nextWeakref = some vid ∧
      (mScriptContextAccessWeakref wfin w.nextId).2 = some vid ∧
      wfin.engines = w.engines) ∧
    (∀ oid oh ouid ov, assocLookup w.rootScope key = some oid →
      assocLookup w.heap oid = some ov → ov.payload = .u32 oh →
      assocLookup w.weakrefs oh = some ouid →
      wfin.events =
        w.events ++ [.clearWeakrefEv oh, .derefEv ouid, .refEv vid, .derefEv oid] ++
          w.engines.map (fun e => .engineSetGlobal e.1 key (some w.nextId)) ∧
      assocLookup wfin.rootScope key = some w.nextId ∧
      assocLookup wfin.heap w.nextId =
        some { typ := { base := .weakref }, payload := MScriptPayload.u32 w.nextWeakref,
               refs := .counted 1 } ∧
      assocLookup wfin.weakrefs w.nextWeakref = some vid ∧
      (mScriptContextAccessWeakref wfin w.nextId).2 = some vid ∧
      wfin.engines = w.engines) := by
  constructor
  · -- the key had no previous binding: no clear, no deref of an old wrapper
    intro hold
    rw [mScriptContextSetGlobal] at hs
    simp only [hold] at hs
    cases hsw : mScriptContextSetWeakref w vid with
    | none => rw [hsw] at hs; cases hs
    | some p =>
        obtain ⟨wb, h⟩ := p
        rw [hsw] at hs
        simp only [mScriptValueAlloc, Option.some.injEq] at hs
        obtain ⟨hh, n, hadv, hwb⟩ := setWeakref_eq _ vid wb h hsw
        subst hh
        subst hs
        have hrfree : assocLookup (mScriptValueRef w vid).weakrefs w.nextWeakref = none := by
          rw [ref_weakrefs]
          exact hfree
        have hwi := weakrefsInsert_of_none (mScriptValueRef w vid) vid hrfree
        have hwbev : wb.events = w.events ++ [.refEv vid] := by
          rw [hwb]
          show (weakrefsInsert (mScriptValueRef w vid) w.nextWeakref vid).events = _
          rw [hwi]
          show (mScriptValueRef w vid).events = _
          rw [ref_events]
        have hwbnid : wb.nextId = w.nextId := by
          rw [hwb]
          show (weakrefsInsert (mScriptValueRef w vid) w.nextWeakref vid).nextId = _
          rw [weakrefsInsert_nextId, ref_nextId]
        have hwbrs : wb.rootScope = w.rootScope := by
          rw [hwb]
          show (weakrefsInsert (mScriptValueRef w vid) w.nextWeakref vid).rootScope = _
          rw [weakrefsInsert_rootScope, ref_rootScope]
        have hwbeng : wb.engines = w.engines := by
          rw [hwb]
          show (weakrefsInsert (mScriptValueRef w vid) w.nextWeakref vid).engines = _
          rw [weakrefsInsert_engines, ref_engines]
        have hwblook : assocLookup wb.weakrefs w.nextWeakref = some vid := by
          rw [hwb]
          show assocLookup (weakrefsInsert (mScriptValueRef w vid)
            w.nextWeakref vid).weakrefs w.nextWeakref = _
          exact weakrefsInsert_lookup_self _ _ _
        set walloc : World := { wb with
          heap := assocInsert wb.heap wb.nextId
            { typ := { base := .weakref }, payload := .noPayload, refs := .counted 1 },
          nextId := wb.nextId + 1 } with hwalloc
        set P := heapSetPayload walloc wb.nextId (MScriptPayload.u32 w.nextWeakref) with hP
        have hPheap : assocLookup P.heap wb.nextId =
            some { typ := { base := .weakref }, payload := MScriptPayload.u32 w.nextWeakref,
                   refs := .counted 1 } := by
          rw [hP]
          have hbase : assocLookup walloc.heap wb.nextId =
              some { typ := { base := .weakref }, payload := .noPayload,
                     refs := .counted 1 } := by
            rw [hwalloc]
            exact assocLookup_insert_self _ _ _
          simpa using heapSetPayload_heap_lookup_self walloc
            (MScriptPayload.u32 w.nextWeakref) hbase
        have hPrs : P.rootScope = w.rootScope := by
          rw [hP, heapSetPayload_rootScope]
          show wb.rootScope = w.rootScope
          exact hwbrs
        have hPev : P.events = wb.events := by
          rw [hP, heapSetPayload_events]
        have hPwk : P.weakrefs = wb.weakrefs := by
          rw [hP, heapSetPayload_weakrefs]
        have hPeng : P.engines = wb.engines := by
          rw [hP, heapSetPayload_engines]
        have hPlookN : assocLookup P.rootScope key = none := by
          rw [hPrs]
          exact hold
        have hri := rootScopeInsert_of_none P wb.nextId hPlookN
        set R := rootScopeInsert P key wb.nextId with hR
        have hRev : R.events = P.events := by
          rw [hri]
        have hRrs : assocLookup R.rootScope key = some wb.nextId := by
          rw [hri]
          show assocLookup (P.rootScope ++ [(key, wb.nextId)]) key = _
          refine (assocLookup_append_of_none _ hPlookN).trans ?e
          simp [assocLookup]
        have hRwk : R.weakrefs = P.weakrefs := by
          rw [hri]
        have hRheap : assocLookup R.heap wb.nextId =
            some { typ := { base := .weakref }, payload := MScriptPayload.u32 w.nextWeakref,
                   refs := .counted 1 } := by
          rw [hri]
          show assocLookup P.heap wb.nextId = _
          exact hPheap
        have hReng : R.engines = w.engines := by
          rw [hri]
          show P.engines = _
          rw [hPeng, hwbeng]
        have hF := enginesFanSetGlobal_eq R key (some wb.nextId)
        rw [hF]
        refine ⟨?_, ?_, ?_, ?_, ?_, ?_⟩
        · show R.events ++ R.engines.map _ = _
          rw [hRev, hPev, hwbev, hReng, hwbnid]
        · show assocLookup R.rootScope key = some w.nextId
          rw [hRrs, hwbnid]
        · show assocLookup R.heap w.nextId = _
          rw [← hwbnid]
          exact hRheap
        · show assocLookup R.weakrefs w.nextWeakref = some vid
          rw [hRwk, hPwk]
          exact hwblook
        · show (mScriptContextAccessWeakref { R with
              events := R.events ++ R.engines.map (fun e =>
                .engineSetGlobal e.1 key (some wb.nextId)) } w.nextId).2 = some vid
          have hFheap : assocLookup ({ R with events := R.events ++ R.engines.map (fun e =>
              Event.engineSetGlobal e.1 key (some wb.nextId)) } : World).heap w.nextId =
              some { typ := { base := .weakref }, payload := MScriptPayload.u32 w.nextWeakref,
                     refs := .counted 1 } := by
            show assocLookup R.heap w.nextId = _
            rw [← hwbnid]
            exact hRheap
          simp only [mScriptContextAccessWeakref, hFheap]
          show assocLookup R.weakrefs w.nextWeakref = some vid
          rw [hRwk, hPwk]
          exact hwblook
        · show R.engines = w.engines
          exact hReng
  · -- the key was already bound to a live wrapper: its handle is cleared first
    intro oid oh ouid ov hold hov hovp hoh
    have hU : heapU32 w oid = oh := by simp [heapU32, hov, hovp]
    rw [mScriptContextSetGlobal] at hs
    simp only [hold, hU] at hs
    cases hsw : mScriptContextSetWeakref (mScriptContextClearWeakref w oh) vid with
    | none => rw [hsw] at hs; cases hs
    | some p =>
          obtain ⟨wb, h⟩ := p
          rw [hsw] at hs
          simp only [mScriptValueAlloc, Option.some.injEq] at hs
          obtain ⟨hh, n, hadv, hwb⟩ := setWeakref_eq _ vid wb h hsw
          subst hh
          subst hs
          rw [clearWeakref_nextWeakref] at hwb ⊢
          -- facts about the cleared world
          have hCev := clearWeakref_events_of_some w hoh
          have hCrs := clearWeakref_rootScope w oh
          have hCeng := clearWeakref_engines w oh
          have hCnid := clearWeakref_nextId w oh
          have hCwk := clearWeakref_weakrefs w oh
          have hne : w.nextWeakref ≠ oh := by
            intro he
            rw [he, hoh] at hfree
            cases hfree
          have hCfree : assocLookup (mScriptContextClearWeakref w oh).weakrefs w.nextWeakref =
              none := by
            rw [hCwk, assocLookup_remove_ne hne]
            exact hfree
          have hrCfree : assocLookup
              (mScriptValueRef (mScriptContextClearWeakref w oh) vid).weakrefs w.nextWeakref =
              none := by
            rw [ref_weakrefs]
            exact hCfree
          have hwi := weakrefsInsert_of_none
            (mScriptValueRef (mScriptContextClearWeakref w oh) vid) vid hrCfree
          -- facts about the world after the table insert
          have hwbev : wb.events = w.events ++ [.clearWeakrefEv oh, .derefEv ouid, .refEv vid] := by
            rw [hwb]
            show (weakrefsInsert (mScriptValueRef (mScriptContextClearWeakref w oh) vid)
              w.nextWeakref vid).events = _
            rw [hwi]
            show (mScriptValueRef (mScriptContextClearWeakref w oh) vid).events = _
            rw [ref_events, hCev]
            simp
          have hwbnid : wb.nextId = w.nextId := by
            rw [hwb]
            show (weakrefsInsert (mScriptValueRef (mScriptContextClearWeakref w oh) vid)
              w.nextWeakref vid).nextId = _
            rw [weakrefsInsert_nextId, ref_nextId, hCnid]
          have hwbrs : wb.rootScope = w.rootScope := by
            rw [hwb]
            show (weakrefsInsert (mScriptValueRef (mScriptContextClearWeakref w oh) vid)
              w.nextWeakref vid).rootScope = _
            rw [weakrefsInsert_rootScope, ref_rootScope, hCrs]
          have hwbeng : wb.engines = w.engines := by
            rw [hwb]
            show (weakrefsInsert (mScriptValueRef (mScriptContextClearWeakref w oh) vid)
              w.nextWeakref vid).engines = _
            rw [weakrefsInsert_engines, ref_engines, hCeng]
          have hwblook : assocLookup wb.weakrefs w.nextWeakref = some vid := by
            rw [hwb]
            show assocLookup (weakrefsInsert (mScriptValueRef (mScriptContextClearWeakref w oh) vid)
              w.nextWeakref vid).weakrefs w.nextWeakref = _
            exact weakrefsInsert_lookup_self _ _ _
          -- the allocated wrapper and the worlds after payload store / root insert / fan-out
          set walloc : World := { wb with
            heap := assocInsert wb.heap wb.nextId
              { typ := { base := .weakref }, payload := .noPayload, refs := .counted 1 },
            nextId := wb.nextId + 1 } with hwalloc
          set P := heapSetPayload walloc wb.nextId (MScriptPayload.u32 w.nextWeakref) with hP
          have hPheap : assocLookup P.heap wb.nextId =
              some { typ := { base := .weakref }, payload := MScriptPayload.u32 w.nextWeakref,
                     refs := .counted 1 } := by
            rw [hP]
            have hbase : assocLookup walloc.heap wb.nextId =
                some { typ := { base := .weakref }, payload := .noPayload, refs := .counted 1 } := by
              rw [hwalloc]
              exact assocLookup_insert_self _ _ _
            simpa using heapSetPayload_heap_lookup_self walloc (MScriptPayload.u32 w.nextWeakref) hbase
          have hPrs : P.rootScope = w.rootScope := by
            rw [hP, heapSetPayload_rootScope]
            show wb.rootScope = w.rootScope
            exact hwbrs
          have hPev : P.events = wb.events := by
            rw [hP, heapSetPayload_events]
          have hPwk : P.weakrefs = wb.weakrefs := by
            rw [hP, heapSetPayload_weakrefs]
          have hPeng : P.engines = wb.engines := by
            rw [hP, heapSetPayload_engines]
          have hPlook : assocLookup P.rootScope key = some oid := by
            rw [hPrs]
            exact hold
          have hri := rootScopeInsert_of_some P wb.nextId hPlook
          have hoidlt : oid < w.nextId := hfresh oid (mem_keys_of_assocLookup_some hov)
          have hoidne : wb.nextId ≠ oid := by
            rw [hwbnid]
            exact (Nat.ne_of_lt hoidlt).symm
          set R := rootScopeInsert P key wb.nextId with hR
          have hRev : R.events = P.events ++ [.derefEv oid] := by
            rw [hri]
            show (mScriptValueDeref P oid).events = _
            rw [deref_events]
          have hRrs : assocLookup R.rootScope key = some wb.nextId := by
            rw [hri]
            show assocLookup (assocReplace P.rootScope key wb.nextId) key = _
            exact assocLookup_replace_self _ (by simp [hPlook])
          have hRwk : R.weakrefs = P.weakrefs := by
            rw [hri]
            show (mScriptValueDeref P oid).weakrefs = _
            rw [deref_weakrefs]
          have hRheap : assocLookup R.heap wb.nextId =
              some { typ := { base := .weakref }, payload := MScriptPayload.u32 w.nextWeakref,
                     refs := .counted 1 } := by
            rw [hri]
            show assocLookup (mScriptValueDeref P oid).heap wb.nextId = _
            rw [deref_heap_lookup_ne _ hoidne]
            exact hPheap
          have hReng : R.engines = w.engines := by
            rw [hri]
            show (mScriptValueDeref P oid).engines = _
            rw [deref_engines, hPeng, hwbeng]
          have hF := enginesFanSetGlobal_eq R key (some wb.nextId)
          rw [hF]
          refine ⟨?_, ?_, ?_, ?_, ?_, ?_⟩
          · show R.events ++ R.engines.map _ = _
            rw [hRev, hPev, hwbev, hReng, hwbnid]
            simp
          · show assocLookup R.rootScope key = some w.nextId
            rw [hRrs, hwbnid]
          · show assocLookup R.heap w.nextId = _
            rw [← hwbnid]
            exact hRheap
          · show assocLookup R.weakrefs w.nextWeakref = some vid
            rw [hRwk, hPwk]
            exact hwblook
          · show (mScriptContextAccessWeakref { R with
                events := R.events ++ R.engines.map (fun e =>
                  .engineSetGlobal e.1 key (some wb.nextId)) } w.nextId).2 = some vid
            have hFheap : assocLookup ({ R with events := R.events ++ R.engines.map (fun e =>
                Event.engineSetGlobal e.1 key (some wb.nextId)) } : World).heap w.nextId =
                some { typ := { base := .weakref }, payload := MScriptPayload.u32 w.nextWeakref,
                       refs := .counted 1 } := by
              show assocLookup R.heap w.nextId = _
              rw [← hwbnid]
              exact hRheap
            simp only [mScriptContextAccessWeakref, hFheap]
            show assocLookup R.weakrefs w.nextWeakref = some vid
            rw [hRwk, hPwk]
            exact hwblook
          · show R.engines = w.engines
            exact hReng

theorem setGlobal_fanout_witness :
    assocLookup sampleSetGlobalFresh.rootScope "y" = some 3 ∧
    assocLookup sampleSetGlobalFresh.weakrefs 1 = some 0 ∧
    (mScriptContextAccessWeakref sampleSetGlobalFresh 3).2 = some 0 ∧
    sampleSetGlobalFresh.events =
      [.refEv 0, .engineSetGlobal "a" "y" (some 3), .engineSetGlobal "b" "y" (some 3)] ∧
    assocLookup sampleSetGlobalResult.rootScope "x" = some 3 ∧
    assocLookup sampleSetGlobalResult.weakrefs 1 = some 0 ∧
    (mScriptContextAccessWeakref sampleSetGlobalResult 3).2 = some 0 ∧
    sampleSetGlobalResult.events =
      [.clearWeakrefEv 0, .derefEv 0, .refEv 0, .derefEv 2,
       .engineSetGlobal "a" "x" (some 3), .engineSetGlobal "b" "x" (some 3)] := by
  have hA := (setGlobal_fanout sampleGlobalWorld "y" 0 sampleSetGlobalFresh
    (by decide) (by decide) (by decide)).1 (by decide)
  have hB := (setGlobal_fanout sampleGlobalWorld "x" 0 sampleSetGlobalResult
    (by decide) (by decide) (by decide)).2 2 0 0 sampleWrapperValue
    (by decide) (by decide) (by decide) (by decide)
  refine ⟨hA.2.1, hA.2.2.2.1, hA.2.2.2.2.1, ?_, hB.2.1, hB.2.2.2.1, hB.2.2.2.2.1, ?_⟩
  · rw [hA.1]
    decide
  · rw [hB.1]
    decide

theorem removeGlobal_notifies_then_clears_witness :
    (mScriptContextRemoveGlobal sampleGlobalWorld "x").events =
      [.engineSetGlobal "a" "x" none, .engineSetGlobal "b" "x" none,
       .clearWeakrefEv 0, .derefEv 0, .derefEv 2] ∧
    assocLookup (mScriptContextRemoveGlobal sampleGlobalWorld "x").rootScope "x" = none ∧
    assocLookup (mScriptContextRemoveGlobal sampleGlobalWorld "x").weakrefs 0 = none ∧
    (mScriptContextRemoveGlobal sampleGlobalWorld "x").engines = sampleGlobalWorld.engines := by
  have happ := removeGlobal_notifies_then_clears sampleGlobalWorld "x" 2 0 0 sampleWrapperValue
    (by decide) (by decide) (by decide) (by decide) (by decide) (by decide)
  refine ⟨?_, happ.2.1, happ.2.2.1, happ.2.2.2⟩
  rw [happ.1]
  decide
